import Mathlib

/-!
Verification of the farmwalk geodesic area service (src/app.py) against its
design specification.  The two request handlers, calculate_area and
verify_geojson, are embedded as pure Lean functions over exact rationals.
The two external geometry libraries used by the code (pyproj for the geodesic
area, shapely for polygon validity) are not part of this repository; they are
modelled from the specification where a claim depends on them, as noted in the
doc comments below.
-/

namespace Farmwalk

attribute [local semireducible] Rat.add Rat.mul Rat.sub Rat.inv

/-- A coordinate pair.  In requests to the calculator the order is
(latitude, longitude); inside GeoJSON structures the order is
(longitude, latitude), exactly as in src/app.py. -/
abbrev Pt : Type := ℚ × ℚ

/-- A polygon ring: an ordered list of coordinate pairs. -/
abbrev PolyRing : Type := List Pt

/-- Nearest integer with ties to even, the rounding of Python's builtin
round (used by src/app.py as round(x, n); binary floating-point representation
effects are abstracted away, the value is rounded exactly). -/
def rnearest (q : ℚ) : ℤ :=
  let n := ⌊q⌋
  let r := q - (n : ℚ)
  if r < 1/2 then n
  else if (1 : ℚ)/2 < r then n + 1
  else if Even n then n else n + 1

/-- Python round(x, p): round to p decimal places, ties to even. -/
def round_dec (q : ℚ) (p : ℕ) : ℚ := (rnearest (q * 10 ^ p) : ℚ) / 10 ^ p

/-- Rounding to 6 decimal places, the precision used by round_coordinates in
src/app.py. -/
def round6 (q : ℚ) : ℚ := round_dec q 6

/-- One vertex of the comprehensions in calculate_area: a request vertex
[lat, lng] becomes a GeoJSON vertex [lng, lat] (line 44 of src/app.py), and
both entries are rounded to 6 decimal places (round_coordinates, line 47). -/
def roundSwap (c : Pt) : Pt := (round6 c.2, round6 c.1)

/-- Rounding a request vertex [lat, lng] in place, without the swap to GeoJSON
order; the composition of roundSwap with the swap back that verify_geojson
performs. -/
def round6Pair (c : Pt) : Pt := (round6 c.1, round6 c.2)

/-- The closing step of calculate_area (src/app.py lines 49-51): append the
first vertex whenever the last one differs from it. -/
def closeRing (w : List Pt) : List Pt :=
  if w.head? = w.getLast? then w else w ++ w.head?.toList

/-- The ring that calculate_area builds from the request coordinates
(src/app.py lines 43-51): swap each vertex to GeoJSON order, round to
6 decimal places, then append the first vertex if the last one differs. -/
def processRing (cs : List Pt) : PolyRing := closeRing (cs.map roundSwap)

/-- The swap back to (lat, lng) order performed by verify_geojson
(line 125 of src/app.py). -/
def swapBack (p : Pt) : Pt := (p.2, p.1)

/-- Orientation of the triple (o, p, q): positive for a left turn. -/
def cross (o p q : Pt) : ℚ :=
  (p.1 - o.1) * (q.2 - o.2) - (p.2 - o.2) * (q.1 - o.1)

/-- Whether r lies in the closed bounding box of the segment from p to q. -/
def inBox (p q r : Pt) : Bool :=
  decide (min p.1 q.1 ≤ r.1) && decide (r.1 ≤ max p.1 q.1) &&
  decide (min p.2 q.2 ≤ r.2) && decide (r.2 ≤ max p.2 q.2)

/-- Whether r lies on the closed segment from p to q. -/
def onSeg (p q r : Pt) : Bool := decide (cross p q r = 0) && inBox p q r

/-- Whether the closed segments p1-p2 and q1-q2 share at least one point. -/
def segsIntersect (p1 p2 q1 q2 : Pt) : Bool :=
  let d1 := cross q1 q2 p1
  let d2 := cross q1 q2 p2
  let d3 := cross p1 p2 q1
  let d4 := cross p1 p2 q2
  ((decide (0 < d1) && decide (d2 < 0) || decide (d1 < 0) && decide (0 < d2)) &&
   (decide (0 < d3) && decide (d4 < 0) || decide (d3 < 0) && decide (0 < d4))) ||
  onSeg q1 q2 p1 || onSeg q1 q2 p2 || onSeg p1 p2 q1 || onSeg p1 p2 q2

/-- Whether two consecutive ring edges, the first one ending at the vertex where
the second one starts, meet only in that shared vertex. -/
def adjacentOK (e1 e2 : Pt × Pt) : Bool :=
  !(onSeg e2.1 e2.2 e1.1) && !(onSeg e1.1 e1.2 e2.2)

/-- Whether no two edges of the closed ring meet outside the shared vertices of
(cyclically) consecutive edges. -/
def ringSimple (r : PolyRing) : Bool :=
  let es := r.zip r.tail
  let n := es.length
  (List.range n).all fun i =>
    (List.range n).all fun j =>
      if j ≤ i then true
      else
        let e1 := es.getD i ((0, 0), (0, 0))
        let e2 := es.getD j ((0, 0), (0, 0))
        if j = i + 1 then adjacentOK e1 e2
        else if i == 0 && j == n - 1 then adjacentOK e2 e1
        else !(segsIntersect e1.1 e1.2 e2.1 e2.2)

/-- Sum of the edge terms E along consecutive vertices of a path. -/
def pathSum (E : Pt → Pt → ℚ) : List Pt → ℚ
  | p :: q :: t => E p q + pathSum E (q :: t)
  | _ => 0

/-- Modelled from the spec: the geodesic area routine called on line 65 of
src/app.py (pyproj Geod.polygon_area_perimeter, an external library whose code
is not part of this repository) decomposes the closed ring into segments
between consecutive vertices, closes the loop back to the first vertex, and
sums one integral term per segment (the ellipsoidal analogue of the shoelace
formula).  cyclicArea E is that cyclic sum for an arbitrary per-edge term E. -/
def cyclicArea (E : Pt → Pt → ℚ) : List Pt → ℚ
  | [] => 0
  | p :: ps => pathSum E (p :: ps) + E ((p :: ps).getLastD p) p

/-- Per-edge term of the planar shoelace formula. -/
def crossEdge (p q : Pt) : ℚ := p.1 * q.2 - q.1 * p.2

/-- Doubled signed planar shoelace area of a list read as a cyclic polygon;
zero exactly when the ring encloses no planar area. -/
def shoelace (r : List Pt) : ℚ := cyclicArea crossEdge r

/-- Modelled from the spec: shapely's polygon validity check (polygon.is_valid
on line 56 of src/app.py comes from the external shapely/GEOS library, whose
code is not part of this repository).  Following the spec's words, the closed
ring must not self-intersect and must enclose non-zero area. -/
def ringValid (r : PolyRing) : Bool :=
  ringSimple r && decide (shoelace r ≠ 0)

/-- A GeoJSON geometry object: its "type" field and its "coordinates" field,
a list of rings (absent fields are modelled as none). -/
structure Geom where
  gtype : Option String
  rings : Option (List PolyRing)
deriving DecidableEq

/-- A GeoJSON feature: optional "geometry" and "properties" fields.  The
properties payload type P is abstract; the code only passes it through. -/
structure Feat (P : Type) where
  geometry : Option Geom
  properties : Option P
deriving DecidableEq

/-- A GeoJSON-like value as dispatched by verify_geojson on its "type" field:
a FeatureCollection, a Feature, or any other object, treated as a bare
geometry. -/
inductive GJ (P : Type) where
  | fc : List (Feat P) → GJ P
  | feat : Feat P → GJ P
  | geomv : Geom → GJ P
deriving DecidableEq

/-- Validation failures of the calculator endpoint, the two 400 responses of
calculate_area in src/app.py: "At least 3 coordinates required" (line 41) and
"Invalid polygon geometry" (line 57). -/
inductive CalcError where
  | insufficientVertices
  | invalidGeometry
deriving DecidableEq

/-- Properties attached to the calculator's output feature, in the order of
the dict literal on lines 80-85 of src/app.py. -/
structure CalcProps where
  area_ha : ℚ
  area_m2 : ℚ
  timestamp : String
  coordinate_count : ℕ
deriving DecidableEq

/-- Core of the calculate_area endpoint (src/app.py lines 36-89), after the
HTTP and JSON plumbing.  The external geodesic routine is passed in as the
parameter A (the area output of geod.polygon_area_perimeter, line 65) and the
clock reading as now (datetime.utcnow().isoformat() + "Z", line 83). -/
def calculate_area (A : PolyRing → ℚ) (now : String) (coordinates : List Pt) :
    Except CalcError (GJ CalcProps) :=
  if coordinates.length < 3 then .error .insufficientVertices
  else if ringValid (processRing coordinates) then
    .ok (.fc [⟨some ⟨some "Polygon", some [processRing coordinates]⟩,
      some ⟨round_dec (|A (processRing coordinates)| / 10000) 4,
        round_dec (|A (processRing coordinates)|) 2, now,
        coordinates.length⟩⟩])
  else .error .invalidGeometry

/-- Validation failures of the verify endpoint: "No features found in GeoJSON"
(line 108), "Only Polygon geometry supported" (line 117), "Invalid polygon
coordinates" (line 122); indexError stands for the uncaught IndexError of
geometry.get('coordinates', [[]])[0] on a present-but-empty coordinates list,
reported through the 500 handler. -/
inductive VerifyError where
  | noFeatures
  | unsupportedGeometry
  | insufficientVertices
  | indexError
deriving DecidableEq

/-- A successful verify response: coordinates in (latitude, longitude) order
and the passed-through properties (none models the empty default). -/
structure VerifyOut (P : Type) where
  coordinates : List Pt
  properties : Option P
deriving DecidableEq

/-- The geometry object that verify_geojson resolves from its input
(src/app.py lines 104-114): the first feature's geometry for a
FeatureCollection, the geometry field of a Feature, or the value itself. -/
def resolvedGeom {P : Type} : GJ P → Except VerifyError Geom
  | .fc [] => .error .noFeatures
  | .fc (f :: _) => .ok (f.geometry.getD ⟨none, none⟩)
  | .feat f => .ok (f.geometry.getD ⟨none, none⟩)
  | .geomv g0 => .ok g0

/-- Core of the verify_geojson endpoint (src/app.py lines 100-130): dispatch
on the "type" field, take the first feature of a FeatureCollection, require a
Polygon geometry, extract the outer ring, swap each vertex back to (lat, lng)
order, and pass through the first feature's properties only for a
FeatureCollection input. -/
def verify_geojson {P : Type} (g : GJ P) : Except VerifyError (VerifyOut P) :=
  match resolvedGeom g with
  | .error e => .error e
  | .ok geometry =>
    if geometry.gtype ≠ some "Polygon" then .error .unsupportedGeometry
    else
      match geometry.rings.getD [[]] with
      | [] => .error .indexError
      | r :: _ =>
        if r.length < 3 then .error .insufficientVertices
        else .ok ⟨r.map swapBack,
          match g with
          | .fc (f :: _) => f.properties
          | _ => none⟩

/-- The area_m2 property of the first feature of a calculator response. -/
def areaM2 : GJ CalcProps → Option ℚ
  | .fc (f :: _) => f.properties.map CalcProps.area_m2
  | _ => none

/-- The area_ha property of the first feature of a calculator response. -/
def areaHa : GJ CalcProps → Option ℚ
  | .fc (f :: _) => f.properties.map CalcProps.area_ha
  | _ => none

/-- Overwrite the timestamp of every feature of a calculator response. -/
def setTimestamp (s : String) : GJ CalcProps → GJ CalcProps
  | .fc fs => .fc (fs.map fun f =>
      ⟨f.geometry, f.properties.map fun p => { p with timestamp := s }⟩)
  | g => g

instance {ε α : Type} [DecidableEq ε] [DecidableEq α] :
    DecidableEq (Except ε α) := fun x y =>
  match x, y with
  | .error a, .error b =>
    match decEq a b with
    | isTrue h => isTrue (by rw [h])
    | isFalse h => isFalse (by intro hh; cases hh; exact h rfl)
  | .error _, .ok _ => isFalse (by intro hh; cases hh)
  | .ok _, .error _ => isFalse (by intro hh; cases hh)
  | .ok a, .ok b =>
    match decEq a b with
    | isTrue h => isTrue (by rw [h])
    | isFalse h => isFalse (by intro hh; cases hh; exact h rfl)

lemma swapBack_injective : Function.Injective swapBack := by
  intro p q h
  cases p
  cases q
  simpa [swapBack, Prod.ext_iff, and_comm] using h

lemma closeRing_map_of_injective (f : Pt → Pt) (hf : Function.Injective f)
    (w : List Pt) : closeRing (w.map f) = (closeRing w).map f := by
  unfold closeRing
  rw [List.head?_map, List.getLast?_map]
  by_cases hw : w.head? = w.getLast?
  · rw [if_pos (by rw [hw]), if_pos hw]
  · rw [if_neg (fun hc => hw (Option.map_injective hf hc)), if_neg hw]
    rw [List.map_append]
    cases w.head? <;> simp

lemma length_closeRing (w : List Pt) : w.length ≤ (closeRing w).length := by
  unfold closeRing
  by_cases hw : w.head? = w.getLast?
  · rw [if_pos hw]
  · rw [if_neg hw]
    simp

/-- Anatomy of a successful calculator response: the input passed both checks
and the response is the GeoJSON FeatureCollection built on lines 72-87 of
src/app.py, with both area figures derived from the absolute raw area of the
processed ring. -/
lemma calculate_area_ok (A : PolyRing → ℚ) (now : String) (cs : List Pt)
    (g : GJ CalcProps) (h : calculate_area A now cs = .ok g) :
    3 ≤ cs.length ∧ ringValid (processRing cs) = true ∧
    g = .fc [⟨some ⟨some "Polygon", some [processRing cs]⟩,
      some ⟨round_dec (|A (processRing cs)| / 10000) 4,
        round_dec (|A (processRing cs)|) 2, now, cs.length⟩⟩] := by
  unfold calculate_area at h
  by_cases h1 : cs.length < 3
  · rw [if_pos h1] at h
    cases h
  · rw [if_neg h1] at h
    by_cases h2 : ringValid (processRing cs) = true
    · rw [if_pos h2] at h
      exact ⟨Nat.not_lt.mp h1, h2, (Except.ok.inj h).symm⟩
    · rw [if_neg h2] at h
      cases h

/-- C10: for a FeatureCollection the extractor inspects only the first
feature: if that feature's geometry is not a Polygon, the request fails with
the unsupported-geometry error no matter what the remaining features hold. -/
theorem c10_first_feature_only {P : Type} (f : Feat P) (fs : List (Feat P))
    (h : (f.geometry.getD ⟨none, none⟩).gtype ≠ some "Polygon") :
    verify_geojson (GJ.fc (f :: fs)) = .error .unsupportedGeometry := by
  simp [verify_geojson, resolvedGeom, h]

/-- Witness for C10: a FeatureCollection whose first feature is a Point and
whose second feature carries a Polygon is still rejected. -/
theorem c10_witness :
    verify_geojson (GJ.fc [⟨some ⟨some "Point", none⟩, (none : Option ℕ)⟩,
      ⟨some ⟨some "Polygon", some [[(0, 0), (1, 0), (0, 1)]]⟩, none⟩]) =
      .error .unsupportedGeometry :=
  c10_first_feature_only _ _ (by decide)

/-- Counterexample to C9 as stated: a Feature input with nonempty attached
properties still gets an empty properties object back, because line 129 of
src/app.py passes properties through only for FeatureCollection inputs. -/
theorem c9_counterexample :
    verify_geojson (GJ.feat (P := ℕ)
        ⟨some ⟨some "Polygon", some [[(0, 0), (1, 0), (0, 1)]]⟩, some 7⟩) =
      .ok ⟨[(0, 0), (0, 1), (1, 0)], none⟩ ∧
    (some 7 : Option ℕ) ≠ none := by
  constructor
  · decide
  · decide

/-- C9 as amended: for each accepted shape the extractor returns the outer
ring with every vertex swapped back to (latitude, longitude) order; the
properties of the first feature are passed through when the input is a
FeatureCollection, while Feature and bare-geometry inputs always get the
empty properties object. -/
theorem c9_extractor_contract {P : Type} :
    (∀ (f : Feat P) (fs : List (Feat P)) (r : PolyRing) (rs : List PolyRing),
      f.geometry = some ⟨some "Polygon", some (r :: rs)⟩ → 3 ≤ r.length →
      verify_geojson (GJ.fc (f :: fs)) = .ok ⟨r.map swapBack, f.properties⟩) ∧
    (∀ (f : Feat P) (r : PolyRing) (rs : List PolyRing),
      f.geometry = some ⟨some "Polygon", some (r :: rs)⟩ → 3 ≤ r.length →
      verify_geojson (GJ.feat f) = .ok ⟨r.map swapBack, none⟩) ∧
    (∀ (r : PolyRing) (rs : List PolyRing), 3 ≤ r.length →
      verify_geojson (GJ.geomv (P := P) ⟨some "Polygon", some (r :: rs)⟩) =
        .ok ⟨r.map swapBack, none⟩) := by
  refine ⟨?_, ?_, ?_⟩
  · intro f fs r rs hg hr
    simp [verify_geojson, resolvedGeom, hg, Nat.not_lt.mpr hr]
  · intro f r rs hg hr
    simp [verify_geojson, resolvedGeom, hg, Nat.not_lt.mpr hr]
  · intro r rs hr
    simp [verify_geojson, resolvedGeom, Nat.not_lt.mpr hr]

/-- Witness for the amended C9: each of the three accepted shapes on a
concrete Polygon ring, with the FeatureCollection one passing its first
feature's properties through. -/
theorem c9_witness :
    verify_geojson (GJ.fc [⟨some ⟨some "Polygon", some [[(0, 0), (1, 0), (0, 1)]]⟩,
        some 7⟩, (⟨none, none⟩ : Feat ℕ)])
      = .ok ⟨[(0, 0), (0, 1), (1, 0)], some 7⟩ ∧
    verify_geojson (GJ.feat (P := ℕ) ⟨some ⟨some "Polygon", some [[(0, 0), (1, 0), (0, 1)]]⟩, none⟩)
      = .ok ⟨[(0, 0), (0, 1), (1, 0)], none⟩ ∧
    verify_geojson (GJ.geomv (P := ℕ) ⟨some "Polygon", some [[(0, 0), (1, 0), (0, 1)]]⟩)
      = .ok ⟨[(0, 0), (0, 1), (1, 0)], none⟩ :=
  ⟨by simpa [swapBack] using
      c9_extractor_contract.1 ⟨some ⟨some "Polygon", some [[(0, 0), (1, 0), (0, 1)]]⟩, some 7⟩
        [⟨none, none⟩] [(0, 0), (1, 0), (0, 1)] [] rfl (by decide),
   by simpa [swapBack] using
      c9_extractor_contract.2.1 ⟨some ⟨some "Polygon", some [[(0, 0), (1, 0), (0, 1)]]⟩, none⟩
        [(0, 0), (1, 0), (0, 1)] [] rfl (by decide),
   by simpa [swapBack] using
      (c9_extractor_contract (P := ℕ)).2.2 [(0, 0), (1, 0), (0, 1)] [] (by decide)⟩

/-- Counterexample to C2 as stated: the code counts list entries, not distinct
vertices.  An input with four entries but only two distinct vertices passes
the length check of both handlers: the calculator reports invalid geometry
(not insufficient vertices) and the extractor succeeds outright. -/
theorem c2_counterexample :
    calculate_area shoelace "t" [(0, 0), (0, 1), (0, 0), (0, 1)] =
      .error .invalidGeometry ∧
    verify_geojson (GJ.geomv (P := ℕ)
        ⟨some "Polygon", some [[(0, 0), (1, 0), (0, 0), (1, 0)]]⟩) =
      .ok ⟨[(0, 0), (0, 1), (0, 0), (0, 1)], none⟩ ∧
    ((0 : ℚ), (0 : ℚ)) ≠ ((0 : ℚ), (1 : ℚ)) := by
  refine ⟨by decide, by decide, by decide⟩

/-- C2 as amended: the insufficient-vertices rejection is decided by the
number of list entries, counted with multiplicity.  The calculator rejects
with that error exactly when fewer than 3 coordinate pairs arrive, and the
extractor rejects a resolved Polygon outer ring with that error exactly when
the ring holds fewer than 3 entries. -/
theorem c2_vertex_count_check (A : PolyRing → ℚ) (now : String) (P : Type) :
    (∀ cs : List Pt, cs.length < 3 →
      calculate_area A now cs = .error .insufficientVertices) ∧
    (∀ cs : List Pt, 3 ≤ cs.length →
      calculate_area A now cs ≠ .error .insufficientVertices) ∧
    (∀ (g : GJ P) (r : PolyRing) (rs : List PolyRing),
      resolvedGeom g = .ok ⟨some "Polygon", some (r :: rs)⟩ →
      (verify_geojson g = .error .insufficientVertices ↔ r.length < 3)) := by
  refine ⟨?_, ?_, ?_⟩
  · intro cs h
    unfold calculate_area
    rw [if_pos h]
  · intro cs h
    unfold calculate_area
    rw [if_neg (Nat.not_lt.mpr h)]
    by_cases h2 : ringValid (processRing cs) = true
    · rw [if_pos h2]
      exact fun hc => by cases hc
    · rw [if_neg h2]
      exact fun hc => by cases hc
  · intro g r rs hg
    by_cases hr : r.length < 3
    · simp [verify_geojson, hg, hr]
    · simp [verify_geojson, hg, hr]

/-- Witness for the amended C2: a two-vertex request is rejected by the
calculator, a three-vertex request is not rejected for vertex count, and a
two-entry Polygon ring is rejected by the extractor while a three-entry one
is not. -/
theorem c2_witness :
    calculate_area shoelace "t" [(0, 0), (0, 1)] = .error .insufficientVertices ∧
    calculate_area shoelace "t" [(0, 0), (0, 1), (1, 1)] ≠
      .error .insufficientVertices ∧
    (verify_geojson (GJ.geomv (P := ℕ) ⟨some "Polygon", some [[(0, 0), (1, 0)]]⟩) =
        .error .insufficientVertices ↔ ([((0:ℚ), (0:ℚ)), (1, 0)] : PolyRing).length < 3) :=
  ⟨(c2_vertex_count_check shoelace "t" ℕ).1 _ (by decide),
   (c2_vertex_count_check shoelace "t" ℕ).2.1 _ (by decide),
   (c2_vertex_count_check shoelace "t" ℕ).2.2 _ _ [] rfl⟩

/-- C3: a request whose processed closed ring fails the simple-polygon check
(it self-intersects or encloses zero area) is rejected with the
invalid-geometry error.  The validity predicate ringValid is modelled from
the spec, standing in for the external shapely library. -/
theorem c3_invalid_geometry (A : PolyRing → ℚ) (now : String) (cs : List Pt)
    (h3 : 3 ≤ cs.length)
    (hv : ringSimple (processRing cs) = false ∨ shoelace (processRing cs) = 0) :
    calculate_area A now cs = .error .invalidGeometry := by
  have hrv : ringValid (processRing cs) = false := by
    cases hv with
    | inl h => simp [ringValid, h]
    | inr h => simp [ringValid, h]
  unfold calculate_area
  rw [if_neg (Nat.not_lt.mpr h3)]
  simp [hrv]

/-- Witness for C3: the bowtie quadrilateral (0,0), (1,1), (1,0), (0,1) in
(lat, lng) order self-intersects and is rejected. -/
theorem c3_witness :
    ringSimple (processRing [(0, 0), (1, 1), (1, 0), (0, 1)]) = false ∧
    calculate_area shoelace "t" [(0, 0), (1, 1), (1, 0), (0, 1)] =
      .error .invalidGeometry :=
  ⟨by decide, c3_invalid_geometry shoelace "t" _ (by decide) (Or.inl (by decide))⟩

/-- C4: the ring in the calculator's output is explicitly closed; the closing
vertex is appended only when (after rounding) the last vertex differs from
the first, so an input whose first and last vertices already coincide is
passed through with no extra vertex. -/
theorem c4_ring_closure (cs : List Pt) (hne : cs ≠ []) :
    (processRing cs).getLast? = (processRing cs).head? ∧
    (cs.head? = cs.getLast? → processRing cs = cs.map roundSwap) ∧
    ((cs.map roundSwap).head? = (cs.map roundSwap).getLast? →
      processRing cs = cs.map roundSwap) ∧
    (processRing cs ≠ cs.map roundSwap →
      (cs.map roundSwap).head? ≠ (cs.map roundSwap).getLast? ∧
        cs.head? ≠ cs.getLast?) := by
  obtain ⟨c, cs', rfl⟩ := List.exists_cons_of_ne_nil hne
  set w := (c :: cs').map roundSwap with hw
  have hwcons : w = roundSwap c :: cs'.map roundSwap := by simp [hw]
  refine ⟨?_, ?_, ?_, ?_⟩
  · unfold processRing
    rw [← hw]
    unfold closeRing
    by_cases h : w.head? = w.getLast?
    · rw [if_pos h]
      exact h.symm
    · rw [if_neg h]
      rw [hwcons]
      rw [show (roundSwap c :: List.map roundSwap cs').head?.toList = [roundSwap c]
        from rfl]
      rw [show roundSwap c :: List.map roundSwap cs' ++ [roundSwap c] =
        (roundSwap c :: List.map roundSwap cs') ++ [roundSwap c] from rfl]
      rw [List.getLast?_concat]
      rfl
  · intro h
    have : w.head? = w.getLast? := by
      rw [hw, List.head?_map, List.getLast?_map, h]
    unfold processRing
    rw [← hw]
    unfold closeRing
    rw [if_pos this]
  · intro h
    unfold processRing
    rw [← hw]
    unfold closeRing
    rw [if_pos h]
  · intro h
    constructor
    · intro hc
      exact h (by unfold processRing; rw [← hw]; unfold closeRing; rw [if_pos hc])
    · intro hc
      exact h (by
        unfold processRing
        rw [← hw]
        unfold closeRing
        rw [if_pos (by rw [hw, List.head?_map, List.getLast?_map, hc])])

/-- Witness for C4: an already-closed square input comes back unchanged, and
an open square input comes back closed. -/
theorem c4_witness :
    (processRing [(0, 0), (0, 1), (1, 1), (1, 0), (0, 0)]).getLast? =
      (processRing [(0, 0), (0, 1), (1, 1), (1, 0), (0, 0)]).head? ∧
    processRing [(0, 0), (0, 1), (1, 1), (1, 0), (0, 0)] =
      ([(0, 0), (0, 1), (1, 1), (1, 0), (0, 0)] : List Pt).map roundSwap := by
  have h := c4_ring_closure [(0, 0), (0, 1), (1, 1), (1, 0), (0, 0)] (by decide)
  exact ⟨h.1, h.2.1 (by decide)⟩

/-- Counterexample to C7 as stated: the response embeds the clock reading
(datetime.utcnow() on line 83 of src/app.py), so two invocations on the same
input made at different instants return different responses. -/
theorem c7_counterexample :
    calculate_area shoelace "2024-01-01T00:00:00Z" [(0, 0), (0, 1), (1, 1), (1, 0)] ≠
      calculate_area shoelace "2024-01-01T00:00:01Z" [(0, 0), (0, 1), (1, 1), (1, 0)] := by
  decide

/-- C7 as amended: apart from the embedded timestamp, the calculator response
is a pure function of the input coordinates and the fixed geodesic routine:
after overwriting the timestamp field, responses computed at any two instants
coincide, and the embedding exhibits no other ambient dependence. -/
theorem c7_pure_up_to_timestamp (A : PolyRing → ℚ) (t₁ t₂ : String)
    (cs : List Pt) :
    (calculate_area A t₁ cs).map (setTimestamp "") =
      (calculate_area A t₂ cs).map (setTimestamp "") := by
  unfold calculate_area
  by_cases h1 : cs.length < 3
  · rw [if_pos h1, if_pos h1]
  · rw [if_neg h1, if_neg h1]
    by_cases h2 : ringValid (processRing cs) = true
    · simp [if_pos h2, Except.map, setTimestamp]
    · simp only [if_neg h2, Except.map]

/-- C8: in a successful calculator response, area_ha is the raw absolute
square-meter area divided by 10000 and rounded to 4 decimal places, while the
reported area_m2 is that same raw value rounded to 2 decimal places
(lines 66-69 and 80-85 of src/app.py). -/
theorem c8_area_fields (A : PolyRing → ℚ) (now : String) (cs : List Pt)
    (g : GJ CalcProps) (h : calculate_area A now cs = .ok g) :
    areaHa g = some (round_dec (|A (processRing cs)| / 10000) 4) ∧
    areaM2 g = some (round_dec (|A (processRing cs)|) 2) := by
  obtain ⟨-, -, rfl⟩ := calculate_area_ok A now cs g h
  exact ⟨rfl, rfl⟩

/-- Witness for C8 on the unit square at the origin with the planar shoelace
term standing in for the geodesic routine: the raw doubled area is 2, so
area_m2 is 2.00 and area_ha is 0.0002. -/
theorem c8_witness :
    calculate_area shoelace "t" [(0, 0), (0, 1), (1, 1), (1, 0)] =
      .ok (.fc [⟨some ⟨some "Polygon",
        some [[(0, 0), (1, 0), (1, 1), (0, 1), (0, 0)]]⟩,
        some ⟨1/5000, 2, "t", 4⟩⟩]) ∧
    areaHa (.fc [⟨some ⟨some "Polygon",
        some [[(0, 0), (1, 0), (1, 1), (0, 1), (0, 0)]]⟩,
        some ⟨1/5000, 2, "t", 4⟩⟩]) =
      some (round_dec (|shoelace (processRing [(0, 0), (0, 1), (1, 1), (1, 0)])| / 10000) 4) ∧
    areaM2 (.fc [⟨some ⟨some "Polygon",
        some [[(0, 0), (1, 0), (1, 1), (0, 1), (0, 0)]]⟩,
        some ⟨1/5000, 2, "t", 4⟩⟩]) =
      some (round_dec (|shoelace (processRing [(0, 0), (0, 1), (1, 1), (1, 0)])|) 2) := by
  have h : calculate_area shoelace "t" [(0, 0), (0, 1), (1, 1), (1, 0)] =
      .ok (.fc [⟨some ⟨some "Polygon",
        some [[(0, 0), (1, 0), (1, 1), (0, 1), (0, 0)]]⟩,
        some ⟨1/5000, 2, "t", 4⟩⟩]) := by decide
  exact ⟨h, (c8_area_fields shoelace "t" _ _ h).1, (c8_area_fields shoelace "t" _ _ h).2⟩

lemma pathSum_concat (E : Pt → Pt → ℚ) (l : List Pt) (a b : Pt)
    (h : l.getLast? = some b) :
    pathSum E (l ++ [a]) = pathSum E l + E b a := by
  induction l with
  | nil => cases h
  | cons c t ih =>
    cases t with
    | nil =>
      obtain rfl : c = b := by simpa using h
      simp [pathSum]
    | cons d m =>
      have h' : (d :: m).getLast? = some b := by
        rw [List.getLast?_cons_cons] at h
        exact h
      have step : pathSum E ((c :: d :: m) ++ [a]) =
          E c d + pathSum E ((d :: m) ++ [a]) := by
        simp [pathSum]
      rw [step, ih h']
      simp [pathSum]
      ring

lemma pathSum_reverse (E : Pt → Pt → ℚ) (hE : ∀ p q, E p q = -E q p)
    (l : List Pt) : pathSum E l.reverse = -pathSum E l := by
  induction l with
  | nil => simp [pathSum]
  | cons x t ih =>
    cases t with
    | nil => simp [pathSum]
    | cons y m =>
      have hrev : (y :: m).reverse.getLast? = some y := by
        rw [List.getLast?_reverse]
        rfl
      have hsplit : (x :: y :: m).reverse = (y :: m).reverse ++ [x] := by simp
      rw [hsplit, pathSum_concat E _ x y hrev, ih]
      have : pathSum E (x :: y :: m) = E x y + pathSum E (y :: m) := by
        simp [pathSum]
      rw [this, hE y x]
      ring

lemma cyclicArea_cons_eq (E : Pt → Pt → ℚ) (p : Pt) (ps : List Pt) (b : Pt)
    (h : (p :: ps).getLast? = some b) :
    cyclicArea E (p :: ps) = pathSum E (p :: ps) + E b p := by
  simp only [cyclicArea, List.getLastD_eq_getLast?, h, Option.getD_some]

lemma cyclicArea_concat_head (E : Pt → Pt → ℚ) (hE0 : ∀ p, E p p = 0)
    (x : Pt) (l : List Pt) :
    cyclicArea E ((x :: l) ++ [x]) = cyclicArea E (x :: l) := by
  cases hgl : (x :: l).getLast? with
  | none => simp at hgl
  | some b =>
    have h1 : (x :: (l ++ [x])).getLast? = some x := List.getLast?_concat (x :: l)
    have e1 : cyclicArea E ((x :: l) ++ [x]) =
        pathSum E ((x :: l) ++ [x]) + E x x :=
      cyclicArea_cons_eq E x (l ++ [x]) x h1
    rw [e1, pathSum_concat E _ x b hgl, cyclicArea_cons_eq E x l b hgl, hE0]
    ring

lemma cyclicArea_reverse (E : Pt → Pt → ℚ) (hE : ∀ p q, E p q = -E q p)
    (l : List Pt) : cyclicArea E l.reverse = -cyclicArea E l := by
  cases l with
  | nil => simp [cyclicArea]
  | cons x t =>
    cases hgl : (x :: t).getLast? with
    | none => simp at hgl
    | some b =>
      have hrevne : (x :: t).reverse ≠ [] := by simp
      obtain ⟨z, w, hzw⟩ := List.exists_cons_of_ne_nil hrevne
      have hz : z = b := by
        have := List.head?_reverse (x :: t)
        rw [hzw, hgl] at this
        simpa using this
      have hzw' : (x :: t).reverse = b :: w := by rw [hzw, hz]
      have hlastrev : (b :: w).getLast? = some x := by
        rw [← hzw', List.getLast?_reverse]
        rfl
      rw [hzw', cyclicArea_cons_eq E b w x hlastrev]
      have hps : pathSum E (b :: w) = -pathSum E (x :: t) := by
        rw [← hzw']
        exact pathSum_reverse E hE _
      rw [hps, cyclicArea_cons_eq E x t b hgl, hE x b]
      ring

/-- Reversing the request coordinates negates any cyclic per-edge sum of the
processed ring, because the processed ring of the reversed input traverses
the same closed loop backwards. -/
lemma cyclicArea_processRing_reverse (E : Pt → Pt → ℚ)
    (hE : ∀ p q, E p q = -E q p) (cs : List Pt) (hne : cs ≠ []) :
    cyclicArea E (processRing cs.reverse) = -cyclicArea E (processRing cs) := by
  have hE0 : ∀ p, E p p = 0 := fun p => by
    have := hE p p
    linarith
  obtain ⟨c, cs', rfl⟩ := List.exists_cons_of_ne_nil hne
  set w : List Pt := (c :: cs').map roundSwap with hw
  have hwne : w ≠ [] := by simp [hw]
  have hrevmap : (c :: cs').reverse.map roundSwap = w.reverse := by
    rw [hw, List.map_reverse]
  unfold processRing
  rw [hrevmap, ← hw]
  unfold closeRing
  by_cases hcl : w.head? = w.getLast?
  · rw [if_pos hcl, if_pos (by rw [List.head?_reverse, List.getLast?_reverse, hcl])]
    exact cyclicArea_reverse E hE w
  · rw [if_neg hcl,
      if_neg (fun hc => hcl (by
        rw [List.head?_reverse, List.getLast?_reverse] at hc
        exact hc.symm))]
    obtain ⟨d, t, hdt⟩ := List.exists_cons_of_ne_nil hwne
    have hrevne : w.reverse ≠ [] := by simp [hwne]
    obtain ⟨z, u, hzu⟩ := List.exists_cons_of_ne_nil hrevne
    have h1 : cyclicArea E (w ++ w.head?.toList) = cyclicArea E w := by
      rw [hdt]
      simpa using cyclicArea_concat_head E hE0 d t
    have h2 : cyclicArea E (w.reverse ++ w.reverse.head?.toList) =
        cyclicArea E w.reverse := by
      rw [hzu]
      simpa using cyclicArea_concat_head E hE0 z u
    rw [h1, h2]
    exact cyclicArea_reverse E hE w

/-- C5: whenever both a request and the same request with its vertex order
reversed are accepted by the calculator, the reported area figures agree,
because the per-edge decomposition of the geodesic signed area changes sign
under reversal (hypothesis hE) and only its absolute value is used. -/
theorem c5_reversal_invariance (E : Pt → Pt → ℚ)
    (hE : ∀ p q, E p q = -E q p) (now now' : String) (cs : List Pt)
    (g₁ g₂ : GJ CalcProps)
    (h₁ : calculate_area (cyclicArea E) now cs = .ok g₁)
    (h₂ : calculate_area (cyclicArea E) now' cs.reverse = .ok g₂) :
    areaM2 g₁ = areaM2 g₂ ∧ areaHa g₁ = areaHa g₂ := by
  obtain ⟨hl, -, rfl⟩ := calculate_area_ok _ _ _ _ h₁
  obtain ⟨-, -, rfl⟩ := calculate_area_ok _ _ _ _ h₂
  have hne : cs ≠ [] := by
    intro h
    rw [h] at hl
    simp at hl
  have harea : |cyclicArea E (processRing cs.reverse)| =
      |cyclicArea E (processRing cs)| := by
    rw [cyclicArea_processRing_reverse E hE cs hne, abs_neg]
  constructor
  · simp [areaM2, harea]
  · simp [areaHa, harea]

/-- Witness for C5: the unit square accepted in both orientations, with the
planar shoelace edge term standing in for the geodesic per-edge integral;
both runs report the same area figures. -/
theorem c5_witness :
    areaM2 (.fc [⟨some ⟨some "Polygon",
        some [[(0, 0), (1, 0), (1, 1), (0, 1), (0, 0)]]⟩,
        some ⟨1/5000, 2, "t", 4⟩⟩]) =
      areaM2 (.fc [⟨some ⟨some "Polygon",
        some [[(0, 1), (1, 1), (1, 0), (0, 0), (0, 1)]]⟩,
        some ⟨1/5000, 2, "u", 4⟩⟩]) ∧
    areaHa (.fc [⟨some ⟨some "Polygon",
        some [[(0, 0), (1, 0), (1, 1), (0, 1), (0, 0)]]⟩,
        some ⟨1/5000, 2, "t", 4⟩⟩]) =
      areaHa (.fc [⟨some ⟨some "Polygon",
        some [[(0, 1), (1, 1), (1, 0), (0, 0), (0, 1)]]⟩,
        some ⟨1/5000, 2, "u", 4⟩⟩]) :=
  c5_reversal_invariance crossEdge
    (fun p q => by simp only [crossEdge]; ring) "t" "u"
    [(0, 0), (0, 1), (1, 1), (1, 0)] _ _ (by decide) (by decide)

/-- C6: feeding a successful calculator response into the extractor returns
the original request coordinates, each value rounded to 6 decimal places and
with the closing vertex appended when the ring was not already closed, in the
original (latitude, longitude) order, together with the response's
properties. -/
theorem c6_round_trip (A : PolyRing → ℚ) (now : String) (cs : List Pt)
    (g : GJ CalcProps) (h : calculate_area A now cs = .ok g) :
    verify_geojson g = .ok ⟨closeRing (cs.map round6Pair),
      some ⟨round_dec (|A (processRing cs)| / 10000) 4,
        round_dec (|A (processRing cs)|) 2, now, cs.length⟩⟩ := by
  obtain ⟨hl, -, rfl⟩ := calculate_area_ok A now cs g h
  have hlen : ¬ (processRing cs).length < 3 := by
    have h1 : cs.length ≤ (processRing cs).length := by
      have h2 := length_closeRing (cs.map roundSwap)
      simpa [processRing] using h2
    omega
  have hring : (processRing cs).map swapBack = closeRing (cs.map round6Pair) := by
    unfold processRing
    rw [← closeRing_map_of_injective swapBack swapBack_injective, List.map_map]
    rfl
  simp [verify_geojson, resolvedGeom, hlen, hring]

/-- Witness for C6: the unit-square request round-trips through the
calculator and the extractor back to its own rounded, closed vertex list. -/
theorem c6_witness :
    verify_geojson (GJ.fc [⟨some ⟨some "Polygon",
        some [[(0, 0), (1, 0), (1, 1), (0, 1), (0, 0)]]⟩,
        some (⟨1/5000, 2, "t", 4⟩ : CalcProps)⟩]) =
      .ok ⟨closeRing (([(0, 0), (0, 1), (1, 1), (1, 0)] : List Pt).map round6Pair),
        some ⟨round_dec
            (|shoelace (processRing [(0, 0), (0, 1), (1, 1), (1, 0)])| / 10000) 4,
          round_dec (|shoelace (processRing [(0, 0), (0, 1), (1, 1), (1, 0)])|) 2,
          "t", 4⟩⟩ := by
  have h : calculate_area shoelace "t" [(0, 0), (0, 1), (1, 1), (1, 0)] =
      .ok (.fc [⟨some ⟨some "Polygon",
        some [[(0, 0), (1, 0), (1, 1), (0, 1), (0, 0)]]⟩,
        some ⟨1/5000, 2, "t", 4⟩⟩]) := by decide
  exact c6_round_trip shoelace "t" _ _ h

lemma rnearest_bounds (q : ℚ) :
    q - 1 ≤ (rnearest q : ℚ) ∧ (rnearest q : ℚ) ≤ q + 1 := by
  have hfl : (⌊q⌋ : ℚ) ≤ q := Int.floor_le q
  have hfu : q < (⌊q⌋ : ℚ) + 1 := Int.lt_floor_add_one q
  unfold rnearest
  simp only []
  split_ifs <;> constructor <;> push_cast <;> linarith

lemma round_dec_bounds (q : ℚ) (p : ℕ) :
    |round_dec q p - q| ≤ 1 / 10 ^ p := by
  have hp : (0 : ℚ) < 10 ^ p := by positivity
  have h := rnearest_bounds (q * 10 ^ p)
  unfold round_dec
  have h1 : (rnearest (q * 10 ^ p) : ℚ) / 10 ^ p - q =
      ((rnearest (q * 10 ^ p) : ℚ) - q * 10 ^ p) / 10 ^ p := by
    field_simp
    ring
  rw [h1, abs_div, abs_of_pos hp]
  exact (div_le_div_iff_of_pos_right hp).mpr
    (abs_le.mpr ⟨by linarith [h.1], by linarith [h.2]⟩)

/-- Semi-major axis of the WGS84 reference ellipsoid, in meters (the ellipsoid
selected on line 18 of src/app.py). -/
def aWGS : ℚ := 6378137

/-- Flattening of the WGS84 reference ellipsoid. -/
def fWGS : ℚ := 1000000000 / 298257223563

/-- First eccentricity squared of the WGS84 reference ellipsoid. -/
def e2WGS : ℚ := fWGS * (2 - fWGS)

/-- Modelled from the spec: the true ellipsoidal surface area of the region of
the WGS84 ellipsoid bounded by the equator, the meridians at longitudes 0 and
dl, and the parallel at latitude ph (radians) — the surface integral of the
ellipsoid area element M N cos t = a^2 (1 - e^2) cos t / (1 - e^2 sin^2 t)^2.
This stands in for the external geodesic area routine
(pyproj Geod.polygon_area_perimeter, line 65 of src/app.py, not part of this
repository) on the concrete 1-degree equatorial quadrilateral scenario, whose
three straight sides (equator and both meridians) are geodesics and whose
short parallel top side differs from the corresponding geodesic by far less
than the tolerance used below. -/
noncomputable def zoneArea (ph dl : ℝ) : ℝ :=
  dl * (((aWGS : ℝ)) ^ 2 * (1 - (e2WGS : ℝ))) *
    ∫ t in (0 : ℝ)..ph, Real.cos t / (1 - (e2WGS : ℝ) * Real.sin t ^ 2) ^ 2

set_option maxHeartbeats 1000000 in
lemma e2WGS_bounds : (66943 / 10 ^ 7 : ℝ) < (e2WGS : ℝ) ∧
    ((e2WGS : ℝ)) < 66944 / 10 ^ 7 := by
  have h1 : (66943 / 10 ^ 7 : ℚ) < e2WGS := by norm_num [e2WGS, fWGS]
  have h2 : e2WGS < (66944 / 10 ^ 7 : ℚ) := by norm_num [e2WGS, fWGS]
  have c1 := (Rat.cast_lt (K := ℝ)).mpr h1
  have c2 := (Rat.cast_lt (K := ℝ)).mpr h2
  push_cast at c1 c2
  exact ⟨c1, c2⟩

set_option maxHeartbeats 1000000 in
lemma aSqb2_bounds : (40408299984000 : ℝ) < (aWGS : ℝ) ^ 2 * (1 - (e2WGS : ℝ)) ∧
    (aWGS : ℝ) ^ 2 * (1 - (e2WGS : ℝ)) < 40408299985000 := by
  have h1 : (40408299984000 : ℚ) < aWGS ^ 2 * (1 - e2WGS) := by
    norm_num [aWGS, e2WGS, fWGS]
  have h2 : aWGS ^ 2 * (1 - e2WGS) < (40408299985000 : ℚ) := by
    norm_num [aWGS, e2WGS, fWGS]
  have c1 := (Rat.cast_lt (K := ℝ)).mpr h1
  have c2 := (Rat.cast_lt (K := ℝ)).mpr h2
  push_cast at c1 c2
  exact ⟨c1, c2⟩

set_option maxHeartbeats 2000000 in
/-- Numeric enclosure of the spec-modelled ellipsoidal area of the scenario
quadrilateral: one degree of longitude by one degree of latitude against the
equator measures between 12308.0 and 12309.3 square kilometers on WGS84. -/
lemma zoneArea_scenario_bounds :
    (12308000000 : ℝ) < zoneArea (Real.pi / 180) (Real.pi / 180) ∧
    zoneArea (Real.pi / 180) (Real.pi / 180) < 12309300000 := by
  have he2a := e2WGS_bounds.1
  have he2b := e2WGS_bounds.2
  have he2_nonneg : (0 : ℝ) ≤ (e2WGS : ℝ) := by linarith
  have hA2a := aSqb2_bounds.1
  have hA2b := aSqb2_bounds.2
  set x : ℝ := Real.pi / 180 with hxdef
  have hx1 : (17453288 / 10 ^ 9 : ℝ) < x := by
    have h := Real.pi_gt_d6
    rw [hxdef]
    norm_num at h ⊢
    linarith
  have hx2 : x < 17453295 / 10 ^ 9 := by
    have h := Real.pi_lt_d6
    rw [hxdef]
    norm_num at h ⊢
    linarith
  have hx_pos : 0 < x := by linarith
  have hsin_ub : Real.sin x < 174533 / 10 ^ 7 := by
    have h := Real.sin_lt hx_pos
    linarith
  have hx3 : x ^ 3 < 53173 / 10 ^ 10 := by
    have h : x ^ 3 < (17453295 / 10 ^ 9 : ℝ) ^ 3 :=
      pow_lt_pow_left₀ hx2 (le_of_lt hx_pos) (by norm_num)
    calc x ^ 3 < (17453295 / 10 ^ 9 : ℝ) ^ 3 := h
      _ < 53173 / 10 ^ 10 := by norm_num
  have hsin_lb : (1745195 / 10 ^ 8 : ℝ) < Real.sin x := by
    have h := Real.sin_gt_sub_cube hx_pos (by linarith : x ≤ 1)
    linarith
  have hsin_pos : 0 < Real.sin x := by linarith
  have hsin_le : ∀ t ∈ Set.Icc (0 : ℝ) x, Real.sin t ≤ t := by
    intro t ht
    rcases eq_or_lt_of_le ht.1 with h | h
    · rw [← h]
      simp
    · exact (Real.sin_lt h).le
  have hsin_nonneg : ∀ t ∈ Set.Icc (0 : ℝ) x, 0 ≤ Real.sin t := by
    intro t ht
    refine Real.sin_nonneg_of_nonneg_of_le_pi ht.1 ?_
    have h := Real.pi_gt_d6
    have := ht.2
    linarith
  have hcos_nonneg : ∀ t ∈ Set.Icc (0 : ℝ) x, 0 ≤ Real.cos t := by
    intro t ht
    refine Real.cos_nonneg_of_mem_Icc ⟨?_, ?_⟩
    · have h := Real.pi_gt_d6
      have := ht.1
      linarith
    · have h := Real.pi_gt_d6
      have := ht.2
      linarith
  have hden_pos : ∀ t : ℝ, 0 < 1 - (e2WGS : ℝ) * Real.sin t ^ 2 := by
    intro t
    nlinarith [Real.sin_le_one t, Real.neg_one_le_sin t, sq_nonneg (Real.sin t)]
  have hcont : Continuous
      (fun t : ℝ => Real.cos t / (1 - (e2WGS : ℝ) * Real.sin t ^ 2) ^ 2) := by
    refine Real.continuous_cos.div ?_ ?_
    · exact (continuous_const.sub (continuous_const.mul
        (Real.continuous_sin.pow 2))).pow 2
    · intro t
      exact pow_ne_zero 2 (ne_of_gt (hden_pos t))
  have hint : IntervalIntegrable
      (fun t : ℝ => Real.cos t / (1 - (e2WGS : ℝ) * Real.sin t ^ 2) ^ 2)
      MeasureTheory.volume 0 x := hcont.intervalIntegrable 0 x
  have hint_cos : IntervalIntegrable Real.cos MeasureTheory.volume 0 x :=
    Real.continuous_cos.intervalIntegrable 0 x
  set D : ℝ := (1 - (e2WGS : ℝ) * (174533 / 10 ^ 7 : ℝ) ^ 2) ^ 2 with hDdef
  have hD_inner_pos : 0 < 1 - (e2WGS : ℝ) * (174533 / 10 ^ 7 : ℝ) ^ 2 := by
    nlinarith [he2b]
  have hD_pos : 0 < D := by
    rw [hDdef]
    exact pow_pos hD_inner_pos 2
  have hD_lb : (999995 / 10 ^ 6 : ℝ) < D := by
    rw [hDdef]
    nlinarith [he2b, he2a]
  have hpt_lo : ∀ t ∈ Set.Icc (0 : ℝ) x, Real.cos t ≤
      Real.cos t / (1 - (e2WGS : ℝ) * Real.sin t ^ 2) ^ 2 := by
    intro t ht
    have h1 : 0 < (1 - (e2WGS : ℝ) * Real.sin t ^ 2) ^ 2 := pow_pos (hden_pos t) 2
    have h2 : (1 - (e2WGS : ℝ) * Real.sin t ^ 2) ^ 2 ≤ 1 := by
      refine pow_le_one₀ (le_of_lt (hden_pos t)) ?_
      nlinarith [mul_nonneg he2_nonneg (sq_nonneg (Real.sin t))]
    rw [le_div_iff₀ h1]
    nlinarith [hcos_nonneg t ht, h2, h1]
  have hpt_hi : ∀ t ∈ Set.Icc (0 : ℝ) x,
      Real.cos t / (1 - (e2WGS : ℝ) * Real.sin t ^ 2) ^ 2 ≤ Real.cos t / D := by
    intro t ht
    have h1 : 0 < (1 - (e2WGS : ℝ) * Real.sin t ^ 2) ^ 2 := pow_pos (hden_pos t) 2
    have hst : Real.sin t ≤ 174533 / 10 ^ 7 := by
      have h3 := hsin_le t ht
      have h4 := ht.2
      linarith
    have hst0 : 0 ≤ Real.sin t := hsin_nonneg t ht
    have hD_le_den : D ≤ (1 - (e2WGS : ℝ) * Real.sin t ^ 2) ^ 2 := by
      rw [hDdef]
      have hs2 : Real.sin t ^ 2 ≤ (174533 / 10 ^ 7 : ℝ) ^ 2 := by nlinarith
      have hinner : 1 - (e2WGS : ℝ) * (174533 / 10 ^ 7 : ℝ) ^ 2 ≤
          1 - (e2WGS : ℝ) * Real.sin t ^ 2 := by nlinarith [he2_nonneg]
      nlinarith [hD_inner_pos, hinner]
    rw [div_le_div_iff₀ h1 hD_pos]
    nlinarith [hcos_nonneg t ht, hD_le_den]
  have hIlow : Real.sin x ≤
      ∫ t in (0 : ℝ)..x, Real.cos t / (1 - (e2WGS : ℝ) * Real.sin t ^ 2) ^ 2 := by
    have h := intervalIntegral.integral_mono_on (le_of_lt hx_pos) hint_cos hint hpt_lo
    rwa [integral_cos, Real.sin_zero, sub_zero] at h
  have hIhigh : (∫ t in (0 : ℝ)..x,
      Real.cos t / (1 - (e2WGS : ℝ) * Real.sin t ^ 2) ^ 2) ≤ Real.sin x / D := by
    have hint_cosD : IntervalIntegrable (fun t => Real.cos t / D)
        MeasureTheory.volume 0 x :=
      (Real.continuous_cos.div_const D).intervalIntegrable 0 x
    have h := intervalIntegral.integral_mono_on (le_of_lt hx_pos) hint hint_cosD hpt_hi
    rwa [intervalIntegral.integral_div, integral_cos, Real.sin_zero, sub_zero] at h
  have hA2_pos : 0 < (aWGS : ℝ) ^ 2 * (1 - (e2WGS : ℝ)) := by linarith
  constructor
  · have p1 : (17453288 / 10 ^ 9 : ℝ) * 40408299984000 <
        x * ((aWGS : ℝ) ^ 2 * (1 - (e2WGS : ℝ))) :=
      mul_lt_mul'' hx1 hA2a (by norm_num) (by norm_num)
    have p2 : (17453288 / 10 ^ 9 : ℝ) * 40408299984000 * (1745195 / 10 ^ 8) <
        x * ((aWGS : ℝ) ^ 2 * (1 - (e2WGS : ℝ))) * Real.sin x :=
      mul_lt_mul'' p1 hsin_lb (by norm_num) (by norm_num)
    have p3 : x * ((aWGS : ℝ) ^ 2 * (1 - (e2WGS : ℝ))) * Real.sin x ≤
        zoneArea (Real.pi / 180) (Real.pi / 180) := by
      unfold zoneArea
      rw [← hxdef]
      exact mul_le_mul_of_nonneg_left hIlow (by positivity)
    have p4 : (12308000000 : ℝ) <
        (17453288 / 10 ^ 9 : ℝ) * 40408299984000 * (1745195 / 10 ^ 8) := by
      norm_num
    linarith
  · have p1 : x * ((aWGS : ℝ) ^ 2 * (1 - (e2WGS : ℝ))) <
        (17453295 / 10 ^ 9 : ℝ) * 40408299985000 :=
      mul_lt_mul'' hx2 hA2b (by linarith) (by linarith)
    have p2 : x * ((aWGS : ℝ) ^ 2 * (1 - (e2WGS : ℝ))) * Real.sin x <
        (17453295 / 10 ^ 9 : ℝ) * 40408299985000 * (174533 / 10 ^ 7) :=
      mul_lt_mul'' p1 hsin_ub (by positivity) (by linarith)
    have p3 : zoneArea (Real.pi / 180) (Real.pi / 180) ≤
        x * ((aWGS : ℝ) ^ 2 * (1 - (e2WGS : ℝ))) * (Real.sin x / D) := by
      unfold zoneArea
      rw [← hxdef]
      exact mul_le_mul_of_nonneg_left hIhigh (by positivity)
    have p4 : x * ((aWGS : ℝ) ^ 2 * (1 - (e2WGS : ℝ))) * (Real.sin x / D) <
        12309300000 := by
      rw [mul_div_assoc', div_lt_iff₀ hD_pos]
      have p5 : x * ((aWGS : ℝ) ^ 2 * (1 - (e2WGS : ℝ))) * Real.sin x <
          12309150000 := by
        have p6 : (17453295 / 10 ^ 9 : ℝ) * 40408299985000 * (174533 / 10 ^ 7) <
            12309150000 := by norm_num
        linarith
      nlinarith [hD_lb]
    linarith

/-- The concrete scenario request of the spec: [[0,0],[0,1],[1,1],[1,0]] in
(latitude, longitude) order. -/
def quadInput : List Pt := [(0, 0), (0, 1), (1, 1), (1, 0)]

/-- The closed GeoJSON-order ring the calculator builds from quadInput. -/
def quadRing : PolyRing := [(0, 0), (1, 0), (1, 1), (0, 1), (0, 0)]

/-- C1: on the concrete scenario input, whenever the external geodesic routine
returns the true ellipsoidal area of the processed ring — the spec-modelled
zoneArea, up to a small tolerance (0.65 km^2, about 0.005 percent) — the
calculator accepts the request and reports an area_m2 of the order of
1.23e10 square meters (between 12300.0 and 12315.0 km^2), the true geodesic
figure rather than any planar approximation at odds with it. -/
theorem c1_equator_square_area (A : PolyRing → ℚ) (now : String)
    (hA : |(A quadRing : ℝ) - zoneArea (Real.pi / 180) (Real.pi / 180)| ≤ 650000) :
    ∃ g : GJ CalcProps, calculate_area A now quadInput = .ok g ∧
      ∃ q : ℚ, areaM2 g = some q ∧
        (12300000000 : ℚ) < q ∧ q < (12315000000 : ℚ) := by
  have hpr : processRing quadInput = quadRing := by decide
  have h4 : ¬ quadInput.length < 3 := by decide
  have hrv : ringValid (processRing quadInput) = true := by decide
  have hz := zoneArea_scenario_bounds
  have habs := abs_le.mp hA
  have hAr1 : (12307350000 : ℝ) < ((A quadRing : ℚ) : ℝ) := by
    have := hz.1
    linarith [habs.1]
  have hAr2 : (((A quadRing : ℚ) : ℝ)) < 12309950000 := by
    have := hz.2
    linarith [habs.2]
  have hq1 : (12307350000 : ℚ) < A quadRing := by exact_mod_cast hAr1
  have hq2 : A quadRing < (12309950000 : ℚ) := by exact_mod_cast hAr2
  have hpos : (0 : ℚ) < A quadRing := by linarith
  have habsq : |A quadRing| = A quadRing := abs_of_pos hpos
  have hr := abs_le.mp (round_dec_bounds (|A quadRing|) 2)
  refine ⟨_, by unfold calculate_area; rw [if_neg h4, if_pos hrv], ?_⟩
  refine ⟨round_dec (|A (processRing quadInput)|) 2, by simp [areaM2], ?_, ?_⟩
  · rw [hpr]
    rw [habsq] at hr ⊢
    have : (1 / 10 ^ 2 : ℚ) = 1 / 100 := by norm_num
    rw [this] at hr
    linarith [hr.1]
  · rw [hpr]
    rw [habsq] at hr ⊢
    have : (1 / 10 ^ 2 : ℚ) = 1 / 100 := by norm_num
    rw [this] at hr
    linarith [hr.2]

/-- Witness for C1: the constant 12308650000 is within the stated tolerance
of the spec-modelled ellipsoidal area, and with it the calculator reports an
area_m2 of the order of 1.23e10 on the scenario input. -/
theorem c1_witness :
    |(((12308650000 : ℚ) : ℝ)) - zoneArea (Real.pi / 180) (Real.pi / 180)| ≤ 650000 ∧
    ∃ g : GJ CalcProps,
      calculate_area (fun _ => (12308650000 : ℚ)) "t" quadInput = .ok g ∧
      ∃ q : ℚ, areaM2 g = some q ∧
        (12300000000 : ℚ) < q ∧ q < (12315000000 : ℚ) := by
  have hz := zoneArea_scenario_bounds
  have hA : |(((12308650000 : ℚ) : ℝ)) -
      zoneArea (Real.pi / 180) (Real.pi / 180)| ≤ 650000 := by
    rw [abs_le]
    push_cast
    constructor
    · linarith [hz.2]
    · linarith [hz.1]
  exact ⟨hA, c1_equator_square_area (fun _ => (12308650000 : ℚ)) "t" hA⟩

end Farmwalk
